import Mathlib

/-!
Verification of the document cache and resource-registration subsystem of
apple-developer-docs-mcp.

The development shallowly embeds `src/cache/document-cache.ts` and
`src/cache/resource-manager.ts` (which also bundles the cache-integration
orchestrator).  JavaScript `Map` objects become association lists kept in
insertion order with unique keys; `Date` timestamps become `Nat`
milliseconds; mutation becomes explicit state passing.  The SHA-256 key
derivation (`crypto.createHash("sha256")`, a platform library) is modelled
as an abstract key-derivation parameter `dk : String → String` threaded
through every operation, since no verified property depends on the digest
function itself.
-/

/-- `CachedDocument` from document-cache.ts.  `timestamp` is the value of
`Date.prototype.getTime()` in milliseconds. -/
structure CachedDocument where
  url : String
  hash : String
  markdown : String
  title : String
  type : String
  timestamp : Nat
  accessCount : Nat
deriving DecidableEq

/-- A JavaScript `Map<string, α>`: entries in insertion order, keys unique. -/
abbrev JsMap (α : Type) := List (String × α)

/-- `Map.prototype.get`. -/
def mapGet {α : Type} (m : JsMap α) (k : String) : Option α :=
  (m.find? (fun p => p.1 == k)).map (fun p => p.2)

/-- `Map.prototype.has`. -/
def mapHas {α : Type} (m : JsMap α) (k : String) : Bool :=
  (m.find? (fun p => p.1 == k)).isSome

/-- `Map.prototype.set`: replace in place when the key is present (JS keeps the
original insertion position), append otherwise. -/
def mapSet {α : Type} (m : JsMap α) (k : String) (v : α) : JsMap α :=
  if mapHas m k then m.map (fun p => if p.1 == k then (k, v) else p)
  else m ++ [(k, v)]

/-- `Map.prototype.delete` (the removal part; presence is checked separately). -/
def mapDelete {α : Type} (m : JsMap α) (k : String) : JsMap α :=
  m.filter (fun p => p.1 != k)

/-- The state of a `DocumentCache`: its private `cache` map. -/
abbrev CacheMap := JsMap CachedDocument

namespace DocumentCache

/-- `set(url, document)`: force `hash = generateCacheKey(url)`, reset
`accessCount` to 0, refresh `timestamp`, then `cache.set(hash, document)`. -/
def set (dk : String → String) (tnow : Nat) (url : String) (document : CachedDocument)
    (cache : CacheMap) : CacheMap :=
  let d : CachedDocument :=
    { document with hash := dk url, accessCount := 0, timestamp := tnow }
  mapSet cache d.hash d

/-- `getByHash(hash)`: look up by key and increment `accessCount` on a hit,
returning the incremented document. -/
def getByHash (hash : String) (cache : CacheMap) : Option CachedDocument × CacheMap :=
  match mapGet cache hash with
  | none => (none, cache)
  | some document =>
    let d : CachedDocument := { document with accessCount := document.accessCount + 1 }
    (some d, mapSet cache hash d)

/-- `get(url)`: the source duplicates `getByHash`'s body at the derived key. -/
def get (dk : String → String) (url : String) (cache : CacheMap) :
    Option CachedDocument × CacheMap :=
  getByHash (dk url) cache

/-- `has(url)`: existence check with no side effect. -/
def has (dk : String → String) (url : String) (cache : CacheMap) : Bool :=
  mapHas cache (dk url)

/-- `deleteByHash(hash)`. -/
def deleteByHash (hash : String) (cache : CacheMap) : Bool × CacheMap :=
  (mapHas cache hash, mapDelete cache hash)

/-- `delete(url)`. -/
def delete (dk : String → String) (url : String) (cache : CacheMap) : Bool × CacheMap :=
  deleteByHash (dk url) cache

/-- `getAll()`: `Array.from(this.cache.values())`. -/
def getAll (cache : CacheMap) : List CachedDocument :=
  cache.map (fun p => p.2)

/-- `getAllHashes()`: `Array.from(this.cache.keys())`. -/
def getAllHashes (cache : CacheMap) : List String :=
  cache.map (fun p => p.1)

/-- `size()`. -/
def size (cache : CacheMap) : Nat :=
  cache.length

/-- `clear()`. -/
def clear (_cache : CacheMap) : CacheMap :=
  []

/-- The comparator handed to `Array.prototype.sort` in `getLeastRecentlyUsed`,
read as the total preorder "comparator(a, b) ≤ 0": first ascending by
`accessCount`, ties ascending by `timestamp` (older first). -/
def LruLE (a b : CachedDocument) : Prop :=
  a.accessCount < b.accessCount ∨
    (a.accessCount = b.accessCount ∧ a.timestamp ≤ b.timestamp)

instance : DecidableRel LruLE := fun a b => by
  unfold LruLE; infer_instance

instance : IsTotal CachedDocument LruLE where
  total a b := by
    unfold LruLE; omega

instance : IsTrans CachedDocument LruLE where
  trans a b c hab hbc := by
    unfold LruLE at *; omega

/-- `getLeastRecentlyUsed(count)`: a stable sort of `getAll()` by the
comparator, truncated.  `Array.prototype.sort` is a stable sort, so it is
modelled by the (stable) insertion sort on the same total preorder. -/
def getLeastRecentlyUsed (count : Nat) (cache : CacheMap) : List CachedDocument :=
  (List.insertionSort LruLE (getAll cache)).take count

/-- `evictLRU(count)`: delete each selected document by its `hash`, collecting
the keys whose deletion actually removed something. -/
def evictLRU (count : Nat) (cache : CacheMap) : List String × CacheMap :=
  let toEvict := getLeastRecentlyUsed count cache
  toEvict.foldl
    (fun acc doc =>
      if mapHas acc.2 doc.hash then (acc.1 ++ [doc.hash], mapDelete acc.2 doc.hash)
      else acc)
    ([], cache)

end DocumentCache

/-- The representation invariant every cache reachable through the public API
satisfies: map keys are unique (a `Map` property) and each stored document's
`hash` field equals its map key (forced by `set`). -/
def WellFormedCache (cache : CacheMap) : Prop :=
  (DocumentCache.getAllHashes cache).Nodup ∧ ∀ p ∈ cache, p.2.hash = p.1

instance : DecidablePred WellFormedCache := fun cache => by
  unfold WellFormedCache; infer_instance

/-! ### Resource manager (resource-manager.ts) -/

/-- The fields of the platform `URL` object that the source reads.  `new URL`
is a platform library; it is modelled for absolute `scheme://host/path…`
inputs: a nonempty all-alphabetic scheme before `"://"`, a nonempty host up to
the first `/`, and the remainder (with its leading slash) as `pathname` —
`"/"` when no path follows the host, as in the browser behaviour.  Any other
shape is `none` (the constructor throws). -/
structure URLParts where
  scheme : String
  host : String
  pathname : String
deriving DecidableEq

/-- Modelled platform `new URL(s)` (see `URLParts`): the scheme runs to the
first `':'`, which must be followed by `"//"` and a nonempty host ending at
the next `'/'`; the pathname is the rest including its leading slash, `"/"`
when no path follows the host. -/
def parseURL (s : String) : Option URLParts :=
  let cs := s.toList
  let scheme := cs.takeWhile (fun c => c ≠ ':')
  match cs.dropWhile (fun c => c ≠ ':') with
  | ':' :: '/' :: '/' :: tail =>
    if scheme ≠ [] ∧ scheme.all Char.isAlpha then
      let host := tail.takeWhile (fun c => c ≠ '/')
      let path := tail.dropWhile (fun c => c ≠ '/')
      if host = [] then none
      else some { scheme := String.mk scheme, host := String.mk host,
                  pathname := if path = [] then "/" else String.mk path }
    else none
  | _ => none

/-- `String.prototype.split(sep)` for a one-character separator, over the
character list. -/
def splitOnChar (sep : Char) : List Char → List (List Char)
  | [] => [[]]
  | c :: cs =>
    let r := splitOnChar sep cs
    if c = sep then [] :: r
    else
      match r with
      | [] => [[c]]
      | g :: gs => (c :: g) :: gs

/-- `pathname.split('/')` as a list of strings. -/
def splitSlash (s : String) : List String :=
  (splitOnChar '/' s.toList).map (fun g => String.mk g)

/-- `Array.prototype.join("/")` on a list of strings. -/
def joinParts : List String → String
  | [] => ""
  | [p] => p
  | p :: q :: ps => p ++ "/" ++ joinParts (q :: ps)

/-- `ResourceRegistration` from resource-manager.ts. -/
structure ResourceRegistration where
  uri : String
  name : String
  success : Bool
  error : Option String
deriving DecidableEq

/-- `ResourceManagerStats`.  `resourceTypes` is a plain JS object used as a
map from type tag to count; `Math.max(0, · - 1)` on decrement matches the
truncated `Nat` subtraction. -/
structure ResourceManagerStats where
  totalResources : Nat
  successfulRegistrations : Nat
  failedRegistrations : Nat
  resourceTypes : JsMap Nat
deriving DecidableEq

/-- `this.registrationStats.resourceTypes[ty] || 0`. -/
def typeCount (m : JsMap Nat) (ty : String) : Nat :=
  (mapGet m ty).getD 0

/-- The mutable state of a `ResourceManager` (the `server` collaborator and
the read-only cache reference are passed separately). -/
structure ResourceManager where
  registeredResources : JsMap ResourceRegistration
  registrationStats : ResourceManagerStats
deriving DecidableEq

/-- The `ResourceManager` as constructed: empty registry, zeroed stats. -/
def initialResourceManager : ResourceManager :=
  { registeredResources := []
    registrationStats :=
      { totalResources := 0, successfulRegistrations := 0,
        failedRegistrations := 0, resourceTypes := [] } }

namespace ResourceManager

/-- `generateResourceUri(url)`: slug of the parsed URL's non-empty path
segments with `"documentation"` segments removed (`join('/') || 'unknown'`,
where the join of no segments is the falsy `""`), or, when `new URL` throws,
`doc-` plus the first 8 characters of the derived cache key. -/
def generateResourceUri (dk : String → String) (url : String) : String :=
  match parseURL url with
  | some urlObj =>
    let pathParts := (splitSlash urlObj.pathname).filter (fun p => p.length > 0)
    let cleanParts := pathParts.filter (fun p => p ≠ "documentation")
    let slug := joinParts cleanParts
    "apple-docs://docs/" ++ (if slug = "" then "unknown" else slug)
  | none =>
    let hash := dk url
    "apple-docs://docs/doc-" ++ String.mk (hash.toList.take 8)

/-- `\s` (ASCII part, the only part the stored titles use). -/
def isJsSpace (c : Char) : Bool :=
  c = ' ' || c = '\t' || c = '\n' || c = '\r' || c = '\x0b' || c = '\x0c'

/-- A character surviving `replace(/[^a-zA-Z0-9\s\-\.]/g, '')`. -/
def keptBySanitizer (c : Char) : Bool :=
  c.isAlpha || c.isDigit || isJsSpace c || c = '-' || c = '.'

/-- `replace(/\s+/g, '-')`: every maximal whitespace run becomes one `'-'`.
The flag records whether the previous character was part of a run. -/
def collapseSpaces : Bool → List Char → List Char
  | _, [] => []
  | inRun, c :: cs =>
    if isJsSpace c then
      if inRun then collapseSpaces true cs
      else '-' :: collapseSpaces true cs
    else c :: collapseSpaces false cs

/-- `generateResourceName(document)`: drop characters outside
`[a-zA-Z0-9\s\-\.]`, turn whitespace runs into hyphens, lowercase. -/
def generateResourceName (document : CachedDocument) : String :=
  let kept := document.title.toList.filter keptBySanitizer
  String.mk ((collapseSpaces false kept).map Char.toLower)

/-- `registerResource(document)`.  The external `server.resource` collaborator
call (agent-protocol SDK) is modelled by its outcome `serverErr`: `none` when
it returns normally, `some msg` when it throws with message `msg`.  The third
component records whether that collaborator call was reached. -/
def registerResource (dk : String → String) (document : CachedDocument)
    (serverErr : Option String) (rm : ResourceManager) :
    ResourceRegistration × ResourceManager × Bool :=
  let uri := generateResourceUri dk document.url
  let name := generateResourceName document
  if mapHas rm.registeredResources document.hash then
    ({ uri := uri, name := name, success := true, error := none }, rm, false)
  else
    match serverErr with
    | none =>
      let registration : ResourceRegistration :=
        { uri := uri, name := name, success := true, error := none }
      let st := rm.registrationStats
      (registration,
       { registeredResources := mapSet rm.registeredResources document.hash registration
         registrationStats :=
           { totalResources := st.totalResources + 1
             successfulRegistrations := st.successfulRegistrations + 1
             failedRegistrations := st.failedRegistrations
             resourceTypes :=
               mapSet st.resourceTypes document.type
                 (typeCount st.resourceTypes document.type + 1) } },
       true)
    | some msg =>
      let st := rm.registrationStats
      ({ uri := uri, name := name, success := false, error := some msg },
       { rm with registrationStats :=
           { st with totalResources := st.totalResources + 1
                     failedRegistrations := st.failedRegistrations + 1 } },
       true)

/-- `unregisterResource(hash)`: drop the bookkeeping entry if present and
decrement the per-type counter via a (side-effecting) `cache.getByHash`. -/
def unregisterResource (hash : String) (rm : ResourceManager) (cache : CacheMap) :
    Bool × ResourceManager × CacheMap :=
  if mapHas rm.registeredResources hash then
    let rr := mapDelete rm.registeredResources hash
    match DocumentCache.getByHash hash cache with
    | (some document, c) =>
      let st := rm.registrationStats
      (true,
       { registeredResources := rr
         registrationStats :=
           { st with
             resourceTypes :=
               mapSet st.resourceTypes document.type
                 (typeCount st.resourceTypes document.type - 1) } },
       c)
    | (none, c) => (true, { rm with registeredResources := rr }, c)
  else (false, rm, cache)

/-- `isRegistered(hash)`. -/
def isRegistered (hash : String) (rm : ResourceManager) : Bool :=
  mapHas rm.registeredResources hash

/-- `getStats()`. -/
def getStats (rm : ResourceManager) : ResourceManagerStats :=
  rm.registrationStats

/-- The unregister loop of `cleanupStaleResources`
(`for (const hash of staleResources) if (await unregisterResource(hash)) cleaned++`). -/
def unregisterCount (hashes : List String) (acc : Nat × ResourceManager × CacheMap) :
    Nat × ResourceManager × CacheMap :=
  hashes.foldl
    (fun a h =>
      let r := unregisterResource h a.2.1 a.2.2
      (a.1 + (if r.1 then 1 else 0), r.2.1, r.2.2))
    acc

/-- `cleanupStaleResources()`: scan the registry for keys whose document is
gone (each probe is a `cache.getByHash`, so live documents get their
`accessCount` bumped by the scan), then unregister the stale ones, counting
successes. -/
def cleanupStaleResources (rm : ResourceManager) (cache : CacheMap) :
    Nat × ResourceManager × CacheMap :=
  let scan :=
    rm.registeredResources.foldl
      (fun (acc : List String × CacheMap) p =>
        match DocumentCache.getByHash p.1 acc.2 with
        | (none, c) => (acc.1 ++ [p.1], c)
        | (some _, c) => (acc.1, c))
      ([], cache)
  unregisterCount scan.1 (0, rm, scan.2)

/-- `getResourceUri(hash)`: resolve the document through the cache (a
side-effecting `getByHash`), fall back to a synthetic URI when absent. -/
def getResourceUri (dk : String → String) (hash : String) (cache : CacheMap) :
    String × CacheMap :=
  match DocumentCache.getByHash hash cache with
  | (none, c) => ("apple-docs://documentation/unknown-" ++ hash, c)
  | (some document, c) => (generateResourceUri dk document.url, c)

end ResourceManager

/-! ### Cache-integration orchestrator (bundled in resource-manager.ts) -/

/-- One `{type: "text", text}` block of a formatter result (the constant
`type` tag is omitted). -/
structure ContentBlock where
  text : String
deriving DecidableEq

/-- The awaited result of the external `formatFunction` collaborator:
`{content: ContentBlock[], isError?}`, with the absent `isError` read as
`false` (it is only ever tested for truthiness). -/
structure FormatResult where
  content : List ContentBlock
  isError : Bool
deriving DecidableEq

/-- `CacheIntegrationConfig`. -/
structure CacheIntegrationConfig where
  enabled : Bool
  registerResources : Bool
  maxCacheSize : Nat
  autoEvict : Bool
deriving DecidableEq

/-- `CacheIntegrationResult`; absent optional fields are `none`. -/
structure CacheIntegrationResult where
  content : FormatResult
  fromCache : Bool
  cacheKey : String
  resourceUri : Option String
  error : Option String
deriving DecidableEq

namespace CacheIntegration

/-- The orchestrator's loop unregistering each evicted hash
(`for (const hash of evicted) await this.resourceManager.unregisterResource(hash)`). -/
def unregisterHashes (hashes : List String) (rm : ResourceManager) (cache : CacheMap) :
    ResourceManager × CacheMap :=
  hashes.foldl
    (fun s h =>
      let r := ResourceManager.unregisterResource h s.1 s.2
      (r.2.1, r.2.2))
    (rm, cache)

/-- The tail of `cacheAwareFormat`'s try block shared by the under-limit and
post-eviction paths: `cache.set`, then optional resource registration, then
the miss result (`error` stays absent even when registration fails — the
failure is only logged). -/
def storeAndRegister (dk : String → String) (tnow : Nat) (cfg : CacheIntegrationConfig)
    (url : String) (content : FormatResult) (cacheKey : String)
    (cachedDoc : CachedDocument) (serverErr : Option String)
    (cache : CacheMap) (rm : ResourceManager) :
    CacheIntegrationResult × CacheMap × ResourceManager :=
  let cache2 := DocumentCache.set dk tnow url cachedDoc cache
  if cfg.registerResources then
    let r := ResourceManager.registerResource dk cachedDoc serverErr rm
    ({ content := content, fromCache := false, cacheKey := cacheKey,
       resourceUri := if r.1.success then some r.1.uri else none, error := none },
     cache2, r.2.1)
  else
    ({ content := content, fromCache := false, cacheKey := cacheKey,
       resourceUri := none, error := none },
     cache2, rm)

/-- `cacheAwareFormat(url, formatFunction, options)`.

The collaborators are passed as parameters, as the specification's boundary
prescribes: `fmt` is the already-awaited formatter result (single-threaded
execution: nothing interleaves with the await), `titleOf`/`typeOf` are the
total title-extraction and type-detection collaborators, and `serverErr` the
registration collaborator's outcome.  The `content.content[0].text` access on
an empty block list throws a `TypeError` that the surrounding catch turns
into a soft error result. -/
def cacheAwareFormat (dk : String → String) (titleOf : String → String)
    (typeOf : String → String → String) (cfg : CacheIntegrationConfig) (tnow : Nat)
    (url : String) (fmt : FormatResult) (skipCache : Bool) (serverErr : Option String)
    (cache : CacheMap) (rm : ResourceManager) :
    CacheIntegrationResult × CacheMap × ResourceManager :=
  let cacheKey := dk url
  let lookup :=
    if cfg.enabled && !skipCache then DocumentCache.get dk url cache
    else (none, cache)
  match lookup with
  | (some cached, cache1) =>
    let r := ResourceManager.getResourceUri dk cached.hash cache1
    ({ content := { content := [{ text := cached.markdown }], isError := false },
       fromCache := true, cacheKey := cacheKey, resourceUri := some r.1, error := none },
     r.2, rm)
  | (none, cache1) =>
    if cfg.enabled && !fmt.isError then
      match fmt.content.head? with
      | none =>
        ({ content := fmt, fromCache := false, cacheKey := cacheKey, resourceUri := none,
           error := some "Cannot read properties of undefined (reading 'text')" },
         cache1, rm)
      | some firstBlock =>
        let markdown := firstBlock.text
        let cachedDoc : CachedDocument :=
          { url := url, hash := cacheKey, markdown := markdown,
            title := titleOf markdown, type := typeOf url markdown,
            timestamp := tnow, accessCount := 0 }
        if cfg.maxCacheSize > 0 && cfg.maxCacheSize ≤ DocumentCache.size cache1 then
          if cfg.autoEvict then
            let ev := DocumentCache.evictLRU 1 cache1
            let s := unregisterHashes ev.1 rm ev.2
            storeAndRegister dk tnow cfg url fmt cacheKey cachedDoc serverErr s.2 s.1
          else
            ({ content := fmt, fromCache := false, cacheKey := cacheKey,
               resourceUri := none, error := some "Cache size limit reached" },
             cache1, rm)
        else
          storeAndRegister dk tnow cfg url fmt cacheKey cachedDoc serverErr cache1 rm
    else
      ({ content := fmt, fromCache := false, cacheKey := cacheKey,
         resourceUri := none, error := none },
       cache1, rm)

/-- `clearAll()`: unregister every hash currently in the cache, then clear
the cache. -/
def clearAll (rm : ResourceManager) (cache : CacheMap) : ResourceManager × CacheMap :=
  let allHashes := DocumentCache.getAllHashes cache
  let s := unregisterHashes allHashes rm cache
  (s.1, DocumentCache.clear s.2)

end CacheIntegration

/-! ### Derived definitions used by the claim statements -/

/-- `n` consecutive `get(url)` calls, keeping only the evolving cache state. -/
def iterateGet (dk : String → String) (url : String) : Nat → CacheMap → CacheMap
  | 0, cache => cache
  | n + 1, cache => iterateGet dk url n (DocumentCache.get dk url cache).2

/-- The registry's mutating operations, for stating registry-wide invariants.
`register`'s `serverErr` is the external collaborator's outcome, as in
`ResourceManager.registerResource`. -/
inductive RegistryOp where
  | register (document : CachedDocument) (serverErr : Option String)
  | unregister (hash : String)
  | cleanupStale

/-- One registry operation applied to the registry-and-cache state. -/
def registryStep (dk : String → String) (op : RegistryOp)
    (s : ResourceManager × CacheMap) : ResourceManager × CacheMap :=
  match op with
  | .register document serverErr =>
    ((ResourceManager.registerResource dk document serverErr s.1).2.1, s.2)
  | .unregister hash =>
    let r := ResourceManager.unregisterResource hash s.1 s.2
    (r.2.1, r.2.2)
  | .cleanupStale =>
    let r := ResourceManager.cleanupStaleResources s.1 s.2
    (r.2.1, r.2.2)

/-- The stats invariant of claim C10. -/
def StatsInvariant (rm : ResourceManager) : Prop :=
  rm.registrationStats.totalResources =
    rm.registrationStats.successfulRegistrations +
      rm.registrationStats.failedRegistrations

instance : DecidablePred StatsInvariant := fun rm => by
  unfold StatsInvariant; infer_instance

/-- Modelled from the spec: the URI-derivation algorithm of §4.3, written from
the spec's words — parse the source URL; split the path into non-empty
segments; drop any segment equal to the structural marker `"documentation"`;
join the remainder with `/`, substituting the placeholder `"unknown"` when no
segments remain; prefix with the namespace scheme; on a parse failure fall
back to `{scheme}doc-{first 8 hex chars of key}`.  Stated for comparison with
the source's `generateResourceUri`. -/
def specUriDerivation (dk : String → String) (url : String) : String :=
  match parseURL url with
  | some urlObj =>
    let segments := (splitSlash urlObj.pathname).filter (fun s => s ≠ "")
    let kept := segments.filter (fun s => s ≠ "documentation")
    "apple-docs://docs/" ++ (if kept.isEmpty then "unknown" else joinParts kept)
  | none => "apple-docs://docs/doc-" ++ String.mk ((dk url).toList.take 8)

/-! ### Concrete sample states used by witnesses and counterexamples -/

/-- A sample document under key `"a"`. -/
def docA : CachedDocument :=
  { url := "a", hash := "a", markdown := "mA", title := "A", type := "documentation",
    timestamp := 5, accessCount := 1 }

/-- A sample document under key `"c"`, never accessed. -/
def docC : CachedDocument :=
  { url := "c", hash := "c", markdown := "mC", title := "C", type := "documentation",
    timestamp := 9, accessCount := 0 }

/-- A two-entry sample cache. -/
def sampleCache : CacheMap := [("a", docA), ("c", docC)]

/-- A one-entry sample cache. -/
def smallCache : CacheMap := [("a", docA)]

/-- A registration as recorded for a document titled `"Alpha"` at the
parseable URL `"https://x.test/alpha"`. -/
def regAlpha : ResourceRegistration :=
  { uri := "apple-docs://docs/alpha", name := "alpha", success := true, error := none }

/-- A registry that has successfully registered one document under key `"k"`. -/
def rmAlpha : ResourceManager :=
  { registeredResources := [("k", regAlpha)]
    registrationStats :=
      { totalResources := 1, successfulRegistrations := 1, failedRegistrations := 0,
        resourceTypes := [("documentation", 1)] } }

/-- The document titled `"Alpha"` whose registration `rmAlpha` records. -/
def docAlpha : CachedDocument :=
  { url := "https://x.test/alpha", hash := "k", markdown := "m", title := "Alpha",
    type := "documentation", timestamp := 0, accessCount := 0 }

/-- The same document re-stored with a new title (same URL, hence same key). -/
def docBeta : CachedDocument :=
  { docAlpha with title := "Beta" }

/-- A registry that registers the key `"a"` of `smallCache`. -/
def rmDocA : ResourceManager :=
  { registeredResources := [("a", regAlpha)]
    registrationStats := rmAlpha.registrationStats }

/-- A one-block successful formatter result. -/
def fmtOk : FormatResult :=
  { content := [{ text := "# B" }], isError := false }

/-- A formatter result flagged as an error. -/
def fmtErr : FormatResult :=
  { content := [{ text := "Error: failed" }], isError := true }

/-- A configuration with a size limit of 1 and auto-eviction disabled. -/
def cfgNoEvict : CacheIntegrationConfig :=
  { enabled := true, registerResources := true, maxCacheSize := 1, autoEvict := false }

/-- The same configuration with auto-eviction enabled. -/
def cfgEvict : CacheIntegrationConfig :=
  { cfgNoEvict with autoEvict := true }

/-! ### Association-list lemmas for the `Map` model -/

theorem mapGet_cons {α : Type} (p : String × α) (m : JsMap α) (k : String) :
    mapGet (p :: m) k = if p.1 = k then some p.2 else mapGet m k := by
  by_cases h : p.1 = k <;> simp [mapGet, List.find?_cons, h]

theorem mapHas_eq_isSome {α : Type} (m : JsMap α) (k : String) :
    mapHas m k = (mapGet m k).isSome := by
  simp [mapGet, mapHas]

theorem mem_of_mapGet {α : Type} {m : JsMap α} {k : String} {v : α}
    (h : mapGet m k = some v) : (k, v) ∈ m := by
  unfold mapGet at h
  cases hf : m.find? (fun p => p.1 == k) with
  | none => simp [hf] at h
  | some p =>
    have hmem := List.mem_of_find?_eq_some hf
    have hp := List.find?_some hf
    simp at hp
    simp [hf] at h
    cases p
    simp_all

theorem mapHas_of_mem {α : Type} {m : JsMap α} {k : String} {v : α}
    (h : (k, v) ∈ m) : mapHas m k = true := by
  unfold mapHas
  rw [List.find?_isSome]
  exact ⟨(k, v), h, by simp⟩

theorem mapGet_nil {α : Type} (k : String) : mapGet ([] : JsMap α) k = none := rfl

theorem mapHas_cons {α : Type} (p : String × α) (m : JsMap α) (k : String) :
    mapHas (p :: m) k = (p.1 == k || mapHas m k) := by
  rw [mapHas_eq_isSome, mapHas_eq_isSome, mapGet_cons]
  by_cases h : p.1 = k <;> simp [h]

theorem mapHas_false_iff {α : Type} (m : JsMap α) (k : String) :
    mapHas m k = false ↔ ∀ p ∈ m, p.1 ≠ k := by
  induction m with
  | nil => simp [mapHas]
  | cons p m ih =>
    rw [mapHas_cons]
    by_cases h : p.1 = k <;> simp [h, ih]

theorem mapGet_eq_none_of_not_has {α : Type} {m : JsMap α} {k : String}
    (h : mapHas m k = false) : mapGet m k = none := by
  rw [mapHas_eq_isSome] at h
  cases hg : mapGet m k <;> simp [hg] at h ⊢

theorem mapGet_append {α : Type} (m l : JsMap α) (k : String) :
    mapGet (m ++ l) k = ((mapGet m k).or (mapGet l k)) := by
  induction m with
  | nil => simp [mapGet_nil]
  | cons p m ih =>
    rw [List.cons_append, mapGet_cons, mapGet_cons]
    by_cases h : p.1 = k <;> simp [h, ih]

theorem mapGet_replace_self {α : Type} (m : JsMap α) (k : String) (v : α) :
    mapGet (m.map (fun p => if p.1 == k then (k, v) else p)) k =
      if mapHas m k then some v else none := by
  induction m with
  | nil => simp [mapGet_nil, mapHas]
  | cons p m ih =>
    rw [List.map_cons, mapHas_cons]
    by_cases h : p.1 = k
    · simp [h, mapGet_cons]
    · have h1 : (if (p.1 == k) = true then (k, v) else p) = p := by simp [h]
      rw [h1, mapGet_cons, if_neg h, ih]
      simp [h]

theorem mapGet_replace_ne {α : Type} (m : JsMap α) (k k' : String) (v : α)
    (h : k' ≠ k) :
    mapGet (m.map (fun p => if p.1 == k then (k, v) else p)) k' = mapGet m k' := by
  induction m with
  | nil => rfl
  | cons p m ih =>
    rw [List.map_cons]
    by_cases hp : p.1 = k
    · have h1 : (if (p.1 == k) = true then (k, v) else p) = (k, v) := by simp [hp]
      rw [h1, mapGet_cons, mapGet_cons, ih]
      have h2 : ¬((k, v).1 = k') := fun hc => h hc.symm
      have h3 : ¬(p.1 = k') := by rw [hp]; exact fun hc => h hc.symm
      rw [if_neg h2, if_neg h3]
    · have h1 : (if (p.1 == k) = true then (k, v) else p) = p := by simp [hp]
      rw [h1, mapGet_cons, mapGet_cons, ih]

theorem mapGet_mapSet_self {α : Type} (m : JsMap α) (k : String) (v : α) :
    mapGet (mapSet m k v) k = some v := by
  unfold mapSet
  by_cases h : mapHas m k
  · rw [if_pos h, mapGet_replace_self, if_pos h]
  · rw [if_neg (by simp [h]), mapGet_append, mapGet_eq_none_of_not_has (by simpa using h)]
    simp [mapGet_cons]

theorem mapGet_mapSet_ne {α : Type} (m : JsMap α) (k k' : String) (v : α)
    (h : k' ≠ k) : mapGet (mapSet m k v) k' = mapGet m k' := by
  unfold mapSet
  by_cases hk : mapHas m k
  · rw [if_pos hk, mapGet_replace_ne m k k' v h]
  · rw [if_neg (by simp [hk]), mapGet_append, mapGet_cons]
    simp only [show ¬((k, v).1 = k') from fun hc => h hc.symm, if_false, mapGet_nil]
    cases mapGet m k' <;> rfl

theorem mapHas_mapSet_ne {α : Type} (m : JsMap α) (k k' : String) (v : α)
    (h : k' ≠ k) : mapHas (mapSet m k v) k' = mapHas m k' := by
  rw [mapHas_eq_isSome, mapHas_eq_isSome, mapGet_mapSet_ne m k k' v h]

theorem mapGet_mapDelete_self {α : Type} (m : JsMap α) (k : String) :
    mapGet (mapDelete m k) k = none := by
  apply mapGet_eq_none_of_not_has
  rw [mapHas_false_iff]
  intro p hp
  have := List.of_mem_filter hp
  simpa using this

theorem mapHas_mapDelete_self {α : Type} (m : JsMap α) (k : String) :
    mapHas (mapDelete m k) k = false := by
  rw [mapHas_eq_isSome, mapGet_mapDelete_self]
  rfl

theorem mapDelete_of_not_has {α : Type} {m : JsMap α} {k : String}
    (h : mapHas m k = false) : mapDelete m k = m := by
  unfold mapDelete
  apply List.filter_eq_self.2
  intro p hp
  have := (mapHas_false_iff m k).1 h p hp
  simpa using this

/-! ### LRU selection and eviction -/

theorem lruLE_refl (a : CachedDocument) : DocumentCache.LruLE a a := by
  unfold DocumentCache.LruLE
  omega

/-- The document whose `hash` keys a well-formed cache entry is found by it. -/
theorem mapHas_hash_of_mem_getAll {cache : CacheMap} {d : CachedDocument}
    (hwf : WellFormedCache cache) (hd : d ∈ DocumentCache.getAll cache) :
    mapHas cache d.hash = true := by
  unfold DocumentCache.getAll at hd
  obtain ⟨p, hp, hpd⟩ := List.mem_map.1 hd
  have : (d.hash, d) ∈ cache := by
    have hk2 : d.hash = p.1 := by
      rw [← hpd]
      exact hwf.2 p hp
    rw [hk2, ← hpd]
    simpa using hp
  exact mapHas_of_mem this

/-- On a nonempty well-formed cache, `evictLRU(1)` removes exactly one entry:
one that is `LruLE`-least among all cached documents. -/
theorem evictLRU_one (cache : CacheMap) (hwf : WellFormedCache cache)
    (hne : cache ≠ []) :
    ∃ d, d ∈ DocumentCache.getAll cache ∧
      (∀ e ∈ DocumentCache.getAll cache, DocumentCache.LruLE d e) ∧
      DocumentCache.evictLRU 1 cache = ([d.hash], mapDelete cache d.hash) := by
  have hperm := List.perm_insertionSort DocumentCache.LruLE (DocumentCache.getAll cache)
  have hsort := List.sorted_insertionSort DocumentCache.LruLE (DocumentCache.getAll cache)
  have hne' : DocumentCache.getAll cache ≠ [] := by
    unfold DocumentCache.getAll
    simpa using hne
  have hlne : List.insertionSort DocumentCache.LruLE (DocumentCache.getAll cache) ≠ [] := by
    intro h0
    exact hne' (List.Perm.eq_nil (h0 ▸ hperm.symm))
  obtain ⟨d, t, hdt⟩ := List.exists_cons_of_ne_nil hlne
  refine ⟨d, ?_, ?_, ?_⟩
  · exact hperm.subset (by simp [hdt])
  · intro e he
    have hel : e ∈ d :: t := hdt ▸ hperm.symm.subset he
    rcases List.mem_cons.1 hel with rfl | het
    · exact lruLE_refl e
    · have := (List.sorted_cons.1 (hdt ▸ hsort)).1
      exact this e het
  · have hglru : DocumentCache.getLeastRecentlyUsed 1 cache = [d] := by
      unfold DocumentCache.getLeastRecentlyUsed
      rw [hdt]
      rfl
    have hhas : mapHas cache d.hash = true :=
      mapHas_hash_of_mem_getAll hwf (hperm.subset (by simp [hdt]))
    unfold DocumentCache.evictLRU
    rw [hglru]
    simp [List.foldl, hhas]

/-! ### Access-count bookkeeping -/

/-- After `n` repeated `get(url)` calls, the entry's access count has grown
by exactly `n`. -/
theorem iterateGet_mapGet (dk : String → String) (url : String) :
    ∀ (n : Nat) (cache : CacheMap) (e : CachedDocument),
      mapGet cache (dk url) = some e →
      mapGet (iterateGet dk url n cache) (dk url) =
        some { e with accessCount := e.accessCount + n }
  | 0, cache, e, h => by
    simpa [iterateGet] using h
  | n + 1, cache, e, h => by
    have hstep : (DocumentCache.get dk url cache).2 =
        mapSet cache (dk url) { e with accessCount := e.accessCount + 1 } := by
      unfold DocumentCache.get DocumentCache.getByHash
      rw [h]
    have hget : mapGet (mapSet cache (dk url) { e with accessCount := e.accessCount + 1 })
        (dk url) = some { e with accessCount := e.accessCount + 1 } :=
      mapGet_mapSet_self _ _ _
    have ih := iterateGet_mapGet dk url n
      (mapSet cache (dk url) { e with accessCount := e.accessCount + 1 })
      { e with accessCount := e.accessCount + 1 } hget
    show mapGet (iterateGet dk url n (DocumentCache.get dk url cache).2) (dk url) = _
    rw [hstep, ih]
    have : e.accessCount + 1 + n = e.accessCount + (n + 1) := by omega
    rw [this]

/-! ### URI-derivation groundwork -/

/-- `join('/')` of a nonempty list of nonempty strings is nonempty. -/
theorem joinParts_ne_empty {l : List String} (hne : l ≠ []) (h : ∀ s ∈ l, s ≠ "") :
    joinParts l ≠ "" := by
  match l with
  | [] => exact absurd rfl hne
  | [p] => simpa [joinParts] using h p (by simp)
  | p :: q :: ps =>
    intro hc
    have hlen : (joinParts (p :: q :: ps)).length =
        p.length + 1 + (joinParts (q :: ps)).length := by
      show (p ++ "/" ++ joinParts (q :: ps)).length = _
      simp [String.length_append]
      decide
    have hp0 : p ≠ "" := h p (by simp)
    have : p.length ≠ 0 := fun h0 => hp0 (by
      have : p.data.length = 0 := h0
      cases hd : p.data with
      | nil => exact String.ext hd
      | cons c cs => rw [hd] at this; simp at this)
    rw [hc] at hlen
    simp at hlen
    omega

/-- A string is nonempty iff its length is positive (as the `Bool` tests the
source uses). -/
theorem length_pos_eq_ne_empty (s : String) :
    (decide (s.length > 0)) = (decide (s ≠ "")) := by
  by_cases h0 : s = ""
  · subst h0; rfl
  · have hd : s.data ≠ [] := fun hc => h0 (String.ext hc)
    have : 0 < s.length := by
      show 0 < s.data.length
      exact List.length_pos.2 hd
    simp [h0, this]

/-! ### Claim theorems -/

/-- C1: `leastRecentlyUsed(count)` returns the cached documents sorted
ascending by `accessCount` with ties broken ascending by `createdAt`
(`timestamp`, older first), truncated to `count`; and on any nonempty cache,
`evictLRU(1)` removes an entry whose `accessCount` is globally minimal — on a
tie, with the earliest `createdAt` among all entries — and returns exactly
the key it removed. -/
theorem C1_lru_selection_and_eviction (count : Nat) (cache : CacheMap)
    (hwf : WellFormedCache cache) :
    (∃ l, l.Perm (DocumentCache.getAll cache) ∧
        List.Sorted DocumentCache.LruLE l ∧
        DocumentCache.getLeastRecentlyUsed count cache = l.take count) ∧
    (cache ≠ [] → ∃ d, d ∈ DocumentCache.getAll cache ∧
        (∀ e ∈ DocumentCache.getAll cache,
          d.accessCount < e.accessCount ∨
            (d.accessCount = e.accessCount ∧ d.timestamp ≤ e.timestamp)) ∧
        DocumentCache.evictLRU 1 cache = ([d.hash], mapDelete cache d.hash)) := by
  constructor
  · exact ⟨List.insertionSort DocumentCache.LruLE (DocumentCache.getAll cache),
      List.perm_insertionSort _ _, List.sorted_insertionSort _ _, rfl⟩
  · intro hne
    obtain ⟨d, hmem, hmin, hev⟩ := evictLRU_one cache hwf hne
    exact ⟨d, hmem, hmin, hev⟩

/-- Witness for C1 on the concrete two-entry cache `sampleCache`: the entry
with the smaller access count is selected first and evicted. -/
theorem C1_lru_selection_and_eviction_witness :
    WellFormedCache sampleCache ∧
    ((∃ l, l.Perm (DocumentCache.getAll sampleCache) ∧
        List.Sorted DocumentCache.LruLE l ∧
        DocumentCache.getLeastRecentlyUsed 1 sampleCache = l.take 1) ∧
      (sampleCache ≠ [] → ∃ d, d ∈ DocumentCache.getAll sampleCache ∧
        (∀ e ∈ DocumentCache.getAll sampleCache,
          d.accessCount < e.accessCount ∨
            (d.accessCount = e.accessCount ∧ d.timestamp ≤ e.timestamp)) ∧
        DocumentCache.evictLRU 1 sampleCache =
          ([d.hash], mapDelete sampleCache d.hash))) :=
  ⟨by decide, C1_lru_selection_and_eviction 1 sampleCache (by decide)⟩

/-- C4: `store(url, d)` overwrites the entry at `deriveKey(url)` and resets
`accessCount` to 0 and `createdAt` to now; every successful `get`/`getByKey`
increments `accessCount` by exactly one, a miss has no side effect, and a
store followed by `n + 1` consecutive gets observes `accessCount = n + 1`
(so one get observes 1). -/
theorem C4_store_resets_then_gets_increment (dk : String → String) (tnow : Nat)
    (url : String) (d : CachedDocument) (cache : CacheMap) :
    (mapGet (DocumentCache.set dk tnow url d cache) (dk url) =
      some { d with hash := dk url, accessCount := 0, timestamp := tnow }) ∧
    (∀ (k : String) (e : CachedDocument), mapGet cache k = some e →
      DocumentCache.getByHash k cache =
        (some { e with accessCount := e.accessCount + 1 },
         mapSet cache k { e with accessCount := e.accessCount + 1 })) ∧
    (mapGet cache (dk url) = none → DocumentCache.get dk url cache = (none, cache)) ∧
    (∀ n : Nat, (DocumentCache.get dk url
        (iterateGet dk url n (DocumentCache.set dk tnow url d cache))).1 =
      some { d with hash := dk url, accessCount := n + 1, timestamp := tnow }) := by
  refine ⟨?_, ?_, ?_, ?_⟩
  · unfold DocumentCache.set
    exact mapGet_mapSet_self _ _ _
  · intro k e h
    unfold DocumentCache.getByHash
    rw [h]
  · intro h
    unfold DocumentCache.get DocumentCache.getByHash
    rw [h]
  · intro n
    have hstored : mapGet (DocumentCache.set dk tnow url d cache) (dk url) =
        some { d with hash := dk url, accessCount := 0, timestamp := tnow } := by
      unfold DocumentCache.set
      exact mapGet_mapSet_self _ _ _
    have hiter := iterateGet_mapGet dk url n _ _ hstored
    unfold DocumentCache.get DocumentCache.getByHash
    rw [hiter]
    simp

/-- Witness for C4 on the concrete one-entry cache `smallCache`, with the
identity key derivation, a fresh URL `"u"` and `n = 2` extra gets. -/
theorem C4_store_resets_then_gets_increment_witness :
    (mapGet smallCache "a" = some docA) ∧
    (DocumentCache.getByHash "a" smallCache =
      (some { docA with accessCount := docA.accessCount + 1 },
       mapSet smallCache "a" { docA with accessCount := docA.accessCount + 1 })) ∧
    (mapGet smallCache ((fun s => s) "u") = none) ∧
    (DocumentCache.get (fun s => s) "u" smallCache = (none, smallCache)) ∧
    ((DocumentCache.get (fun s => s) "u"
        (iterateGet (fun s => s) "u" 2
          (DocumentCache.set (fun s => s) 7 "u" docA smallCache))).1 =
      some { docA with hash := "u", accessCount := 3, timestamp := 7 }) :=
  ⟨by decide,
   (C4_store_resets_then_gets_increment (fun s => s) 7 "u" docA smallCache).2.1
     "a" docA (by decide),
   by decide,
   (C4_store_resets_then_gets_increment (fun s => s) 7 "u" docA smallCache).2.2.1
     (by decide),
   (C4_store_resets_then_gets_increment (fun s => s) 7 "u" docA smallCache).2.2.2 2⟩

/-- C7: the derived external URI follows the spec's algorithm exactly — the
namespace prefix plus the parsed URL's non-empty path segments with every
`"documentation"` segment removed, joined by `/`, or `"unknown"` when no
segments remain; on a parse failure, the prefix plus `doc-` and the first 8
characters of the derived key.  In particular the mapkit/mapview URL yields
the slug `mapkit/mapview`. -/
theorem C7_uri_derivation_follows_spec (dk : String → String) (url : String) :
    ResourceManager.generateResourceUri dk url = specUriDerivation dk url ∧
    ResourceManager.generateResourceUri dk
        "https://developer.apple.com/documentation/mapkit/mapview" =
      "apple-docs://docs/mapkit/mapview" := by
  constructor
  · unfold ResourceManager.generateResourceUri specUriDerivation
    cases hp : parseURL url with
    | none => rfl
    | some u =>
      simp only
      have hfid : (splitSlash u.pathname).filter (fun p => p.length > 0) =
          (splitSlash u.pathname).filter (fun s => s ≠ "") :=
        List.filter_congr (fun s _ => length_pos_eq_ne_empty s)
      rw [hfid]
      have hall : ∀ s ∈ ((splitSlash u.pathname).filter (fun s => s ≠ "")).filter
          (fun p => p ≠ "documentation"), s ≠ "" := by
        intro s hs
        have := List.of_mem_filter (List.mem_of_mem_filter hs)
        · have h2 := List.of_mem_filter (l := splitSlash u.pathname)
            (p := fun s => s ≠ "") (List.mem_of_mem_filter hs)
          simpa using h2
      cases hk : ((splitSlash u.pathname).filter (fun s => s ≠ "")).filter
          (fun p => p ≠ "documentation") with
      | nil => rfl
      | cons a t =>
        have hne : joinParts (a :: t) ≠ "" :=
          joinParts_ne_empty (by simp) (by rw [← hk] at *; exact fun s hs => hall s hs)
        rw [if_neg hne]
        simp [List.isEmpty]
  · rfl

/-- C5 as stated is false: `registerResource` on an already-registered key
recomputes the returned URI and name from the *passed* document, not from the
stored registration.  Registering `docBeta` (same URL/key as `docAlpha`, new
title `"Beta"`) against `rmAlpha` succeeds without invoking the collaborator,
but returns name `"beta"` while the existing registration's name is
`"alpha"`. -/
theorem C5_counterexample :
    (ResourceManager.registerResource (fun s => s) docBeta none rmAlpha).1.success = true ∧
    (ResourceManager.registerResource (fun s => s) docBeta none rmAlpha).2.2 = false ∧
    (mapGet rmAlpha.registeredResources docBeta.hash).map (fun g => g.name) =
      some "alpha" ∧
    (ResourceManager.registerResource (fun s => s) docBeta none rmAlpha).1.name = "beta" ∧
    ("beta" : String) ≠ "alpha" := by
  refine ⟨by decide, by decide, by decide, by decide, by decide⟩

/-- C5 (amended): if `register(document)` is called when `document`'s key is
already registered, the call is an idempotent no-op treated as success — the
registry and its statistics are unchanged and the external registration
collaborator is not invoked — and the returned result carries the URI and
name recomputed from the passed document (these coincide with the existing
registration's whenever the document's `url` and `title` are unchanged). -/
theorem C5_register_idempotent (dk : String → String) (document : CachedDocument)
    (serverErr : Option String) (rm : ResourceManager)
    (h : mapHas rm.registeredResources document.hash = true) :
    ResourceManager.registerResource dk document serverErr rm =
      ({ uri := ResourceManager.generateResourceUri dk document.url,
         name := ResourceManager.generateResourceName document,
         success := true, error := none }, rm, false) := by
  unfold ResourceManager.registerResource
  rw [if_pos h]

/-- Witness for C5 (amended): re-registering `docAlpha` against `rmAlpha`. -/
theorem C5_register_idempotent_witness :
    mapHas rmAlpha.registeredResources docAlpha.hash = true ∧
    ResourceManager.registerResource (fun s => s) docAlpha none rmAlpha =
      ({ uri := ResourceManager.generateResourceUri (fun s => s) docAlpha.url,
         name := ResourceManager.generateResourceName docAlpha,
         success := true, error := none }, rmAlpha, false) :=
  ⟨by decide, C5_register_idempotent (fun s => s) docAlpha none rmAlpha (by decide)⟩

/-- C6 as stated is false: `getResourceUri` never consults the registry.  In
`rmAlpha` the key `"k"` is registered with URI `"apple-docs://docs/alpha"`,
yet on a cache that no longer holds `"k"` the call returns the synthetic
fallback, not the registered URI. -/
theorem C6_counterexample :
    ResourceManager.isRegistered "k" rmAlpha = true ∧
    (mapGet rmAlpha.registeredResources "k").map (fun r => r.uri) =
      some "apple-docs://docs/alpha" ∧
    (ResourceManager.getResourceUri (fun s => s) "k" []).1 =
      "apple-docs://documentation/unknown-k" ∧
    ("apple-docs://documentation/unknown-k" : String) ≠ "apple-docs://docs/alpha" := by
  refine ⟨by decide, by decide, by decide, by decide⟩

/-- C6 (amended): `uriFor(key)` resolves through the cache alone — when the
document for `key` is cached it returns the URI freshly derived from that
document's URL (which equals the registered URI whenever the registration was
derived from the same URL), and when it is not cached it returns the
synthetic fallback URI, which carries the `apple-docs://` scheme and contains
the key. -/
theorem C6_uriFor_resolves_through_cache (dk : String → String) (k : String)
    (cache : CacheMap) :
    (∀ e : CachedDocument, mapGet cache k = some e →
      (ResourceManager.getResourceUri dk k cache).1 =
        ResourceManager.generateResourceUri dk e.url) ∧
    (mapGet cache k = none →
      ResourceManager.getResourceUri dk k cache =
        ("apple-docs://documentation/unknown-" ++ k, cache) ∧
      (∃ rest, "apple-docs://documentation/unknown-" ++ k = "apple-docs://" ++ rest) ∧
      (∃ s, "apple-docs://documentation/unknown-" ++ k = s ++ k)) := by
  constructor
  · intro e h
    unfold ResourceManager.getResourceUri DocumentCache.getByHash
    rw [h]
  · intro h
    refine ⟨?_, ⟨"documentation/unknown-" ++ k, ?_⟩, ⟨"apple-docs://documentation/unknown-", rfl⟩⟩
    · unfold ResourceManager.getResourceUri DocumentCache.getByHash
      rw [h]
    · rw [← String.append_assoc]
      rfl

/-- Witness for C6 (amended) at the unregistered key `"k"` on the empty cache
and at the cached key `"a"` of `smallCache`. -/
theorem C6_uriFor_resolves_through_cache_witness :
    (mapGet smallCache "a" = some docA) ∧
    ((ResourceManager.getResourceUri (fun s => s) "a" smallCache).1 =
      ResourceManager.generateResourceUri (fun s => s) docA.url) ∧
    (mapGet ([] : CacheMap) "k" = none) ∧
    (ResourceManager.getResourceUri (fun s => s) "k" [] =
        ("apple-docs://documentation/unknown-" ++ "k", []) ∧
      (∃ rest, "apple-docs://documentation/unknown-" ++ "k" = "apple-docs://" ++ rest) ∧
      (∃ s, "apple-docs://documentation/unknown-" ++ "k" = s ++ "k")) :=
  ⟨by decide,
   (C6_uriFor_resolves_through_cache (fun s => s) "a" smallCache).1 docA (by decide),
   by decide,
   (C6_uriFor_resolves_through_cache (fun s => s) "k" []).2 (by decide)⟩

/-- C9: `getResourceUri(key)` is not read-only — on a cached key it bumps the
document's `accessCount` by one through `getByHash`; consequently a single
cache-hit `cacheAwareFormat` call leaves the hit entry's `accessCount` larger
by two (one increment from the lookup, one from the URI derivation). -/
theorem C9_getResourceUri_frame_effect (dk : String → String) (url : String)
    (titleOf : String → String) (typeOf : String → String → String)
    (cfg : CacheIntegrationConfig) (tnow : Nat) (fmt : FormatResult)
    (serverErr : Option String) (cache : CacheMap) (rm : ResourceManager) :
    (∀ (k : String) (e : CachedDocument), mapGet cache k = some e →
      ResourceManager.getResourceUri dk k cache =
        (ResourceManager.generateResourceUri dk e.url,
         mapSet cache k { e with accessCount := e.accessCount + 1 })) ∧
    (∀ e : CachedDocument, cfg.enabled = true → WellFormedCache cache →
      mapGet cache (dk url) = some e →
      (CacheIntegration.cacheAwareFormat dk titleOf typeOf cfg tnow url fmt
          false serverErr cache rm).1.fromCache = true ∧
      mapGet (CacheIntegration.cacheAwareFormat dk titleOf typeOf cfg tnow url fmt
          false serverErr cache rm).2.1 (dk url) =
        some { e with accessCount := e.accessCount + 2 }) := by
  constructor
  · intro k e h
    unfold ResourceManager.getResourceUri DocumentCache.getByHash
    rw [h]
  · intro e hen hwf h
    have hhash : e.hash = dk url := by
      have hmem := mem_of_mapGet h
      exact hwf.2 (dk url, e) hmem
    have hget : DocumentCache.get dk url cache =
        (some { e with accessCount := e.accessCount + 1 },
         mapSet cache (dk url) { e with accessCount := e.accessCount + 1 }) := by
      unfold DocumentCache.get DocumentCache.getByHash
      rw [h]
    have huri : ResourceManager.getResourceUri dk e.hash
        (mapSet cache (dk url) { e with accessCount := e.accessCount + 1 }) =
        (ResourceManager.generateResourceUri dk e.url,
         mapSet (mapSet cache (dk url) { e with accessCount := e.accessCount + 1 })
           (dk url) { e with accessCount := e.accessCount + 2 }) := by
      rw [hhash]
      unfold ResourceManager.getResourceUri DocumentCache.getByHash
      rw [mapGet_mapSet_self]
    unfold CacheIntegration.cacheAwareFormat
    rw [hen]
    dsimp only
    rw [hget]
    simp only [Bool.not_false, Bool.and_self, eq_self_iff_true, if_true]
    rw [huri]
    exact ⟨trivial, mapGet_mapSet_self _ _ _⟩

/-- Witness for C9 on the concrete cache `smallCache` and its entry `docA`
(access count 1): after one cache-hit `cacheAwareFormat` the entry's access
count is 3. -/
theorem C9_getResourceUri_frame_effect_witness :
    (mapGet smallCache "a" = some docA) ∧
    (ResourceManager.getResourceUri (fun s => s) "a" smallCache =
      (ResourceManager.generateResourceUri (fun s => s) docA.url,
       mapSet smallCache "a" { docA with accessCount := docA.accessCount + 1 })) ∧
    ((CacheIntegration.cacheAwareFormat (fun s => s) (fun m => m) (fun _ _ => "api")
        cfgEvict 7 "a" fmtOk false none smallCache rmAlpha).1.fromCache = true ∧
      mapGet (CacheIntegration.cacheAwareFormat (fun s => s) (fun m => m)
          (fun _ _ => "api") cfgEvict 7 "a" fmtOk false none smallCache
          rmAlpha).2.1 "a" =
        some { docA with accessCount := docA.accessCount + 2 }) :=
  ⟨by decide,
   (C9_getResourceUri_frame_effect (fun s => s) "a" (fun m => m) (fun _ _ => "api")
      cfgEvict 7 fmtOk none smallCache rmAlpha).1 "a" docA (by decide),
   (C9_getResourceUri_frame_effect (fun s => s) "a" (fun m => m) (fun _ _ => "api")
      cfgEvict 7 fmtOk none smallCache rmAlpha).2 docA (by decide) (by decide)
     (by decide)⟩

/-- `unregisterResource` never touches the registration counters (only the
per-type breakdown). -/
theorem unregisterResource_counters (hash : String) (rm : ResourceManager)
    (cache : CacheMap) :
    ((ResourceManager.unregisterResource hash rm cache).2.1.registrationStats.totalResources,
     (ResourceManager.unregisterResource hash rm cache).2.1.registrationStats.successfulRegistrations,
     (ResourceManager.unregisterResource hash rm cache).2.1.registrationStats.failedRegistrations) =
    (rm.registrationStats.totalResources,
     rm.registrationStats.successfulRegistrations,
     rm.registrationStats.failedRegistrations) := by
  unfold ResourceManager.unregisterResource
  by_cases h : mapHas rm.registeredResources hash
  · rw [if_pos h]
    unfold DocumentCache.getByHash
    cases hg : mapGet cache hash <;> rfl
  · rw [if_neg h]

/-- `unregisterResource` replaces the bookkeeping map by its filtration at
the removed key. -/
theorem unregisterResource_rr (hash : String) (rm : ResourceManager)
    (cache : CacheMap) :
    (ResourceManager.unregisterResource hash rm cache).2.1.registeredResources =
      rm.registeredResources.filter (fun p => p.1 != hash) := by
  unfold ResourceManager.unregisterResource
  by_cases h : mapHas rm.registeredResources hash
  · rw [if_pos h]
    unfold DocumentCache.getByHash
    cases hg : mapGet cache hash <;> rfl
  · rw [if_neg h]
    exact (mapDelete_of_not_has (by simpa using h)).symm

/-- The cleanup loop leaves all three registration counters unchanged. -/
theorem unregisterCount_counters (hs : List String) :
    ∀ acc : Nat × ResourceManager × CacheMap,
      ((ResourceManager.unregisterCount hs acc).2.1.registrationStats.totalResources,
       (ResourceManager.unregisterCount hs acc).2.1.registrationStats.successfulRegistrations,
       (ResourceManager.unregisterCount hs acc).2.1.registrationStats.failedRegistrations) =
      (acc.2.1.registrationStats.totalResources,
       acc.2.1.registrationStats.successfulRegistrations,
       acc.2.1.registrationStats.failedRegistrations) := by
  induction hs with
  | nil => intro acc; rfl
  | cons h hs ih =>
    intro acc
    have hstep : ResourceManager.unregisterCount (h :: hs) acc =
        ResourceManager.unregisterCount hs
          (acc.1 + (if (ResourceManager.unregisterResource h acc.2.1 acc.2.2).1 then 1 else 0),
           (ResourceManager.unregisterResource h acc.2.1 acc.2.2).2.1,
           (ResourceManager.unregisterResource h acc.2.1 acc.2.2).2.2) := by
      unfold ResourceManager.unregisterCount
      rw [List.foldl_cons]
    rw [hstep, ih]
    exact unregisterResource_counters h acc.2.1 acc.2.2

/-- `registerResource` preserves the stats invariant and never decreases the
total. -/
theorem registerResource_stats (dk : String → String) (document : CachedDocument)
    (serverErr : Option String) (rm : ResourceManager) (hInv : StatsInvariant rm) :
    StatsInvariant (ResourceManager.registerResource dk document serverErr rm).2.1 ∧
    rm.registrationStats.totalResources ≤
      (ResourceManager.registerResource dk document serverErr rm).2.1.registrationStats.totalResources := by
  unfold StatsInvariant at hInv ⊢
  unfold ResourceManager.registerResource
  by_cases h : mapHas rm.registeredResources document.hash
  · rw [if_pos h]
    exact ⟨hInv, le_refl _⟩
  · rw [if_neg h]
    cases serverErr with
    | none => exact ⟨by dsimp; omega, by dsimp; omega⟩
    | some msg => exact ⟨by dsimp; omega, by dsimp; omega⟩

/-- C10: every registry operation preserves
`totalResources = successfulRegistrations + failedRegistrations` and never
decreases `totalResources`; `unregister` and `cleanupStale` leave all three
counters unchanged (removing only bookkeeping and the per-type breakdown),
so `totalResources` counts cumulative registration attempts, not currently
registered resources. -/
theorem C10_stats_invariant_preserved (dk : String → String) (op : RegistryOp)
    (s : ResourceManager × CacheMap) (hInv : StatsInvariant s.1) :
    StatsInvariant (registryStep dk op s).1 ∧
    s.1.registrationStats.totalResources ≤
      (registryStep dk op s).1.registrationStats.totalResources ∧
    (∀ h : String, op = .unregister h →
      ((registryStep dk op s).1.registrationStats.totalResources,
       (registryStep dk op s).1.registrationStats.successfulRegistrations,
       (registryStep dk op s).1.registrationStats.failedRegistrations) =
        (s.1.registrationStats.totalResources,
         s.1.registrationStats.successfulRegistrations,
         s.1.registrationStats.failedRegistrations) ∧
      ResourceManager.isRegistered h (registryStep dk op s).1 = false) ∧
    (op = .cleanupStale →
      ((registryStep dk op s).1.registrationStats.totalResources,
       (registryStep dk op s).1.registrationStats.successfulRegistrations,
       (registryStep dk op s).1.registrationStats.failedRegistrations) =
        (s.1.registrationStats.totalResources,
         s.1.registrationStats.successfulRegistrations,
         s.1.registrationStats.failedRegistrations)) := by
  cases op with
  | register document serverErr =>
    obtain ⟨h1, h2⟩ := registerResource_stats dk document serverErr s.1 hInv
    exact ⟨h1, h2, fun h heq => RegistryOp.noConfusion heq,
      fun heq => RegistryOp.noConfusion heq⟩
  | unregister h0 =>
    have hc := unregisterResource_counters h0 s.1 s.2
    have hrr := unregisterResource_rr h0 s.1 s.2
    have hcounters :
        ((registryStep dk (.unregister h0) s).1.registrationStats.totalResources,
         (registryStep dk (.unregister h0) s).1.registrationStats.successfulRegistrations,
         (registryStep dk (.unregister h0) s).1.registrationStats.failedRegistrations) =
        (s.1.registrationStats.totalResources,
         s.1.registrationStats.successfulRegistrations,
         s.1.registrationStats.failedRegistrations) := hc
    refine ⟨?_, ?_, ?_, fun heq => RegistryOp.noConfusion heq⟩
    · unfold StatsInvariant at hInv ⊢
      have e1 := congrArg Prod.fst hcounters
      have e2 := congrArg (fun t => t.2.1) hcounters
      have e3 := congrArg (fun t => t.2.2) hcounters
      dsimp at e1 e2 e3
      omega
    · have e1 := congrArg Prod.fst hcounters
      dsimp at e1
      omega
    · intro h heq
      injection heq with hh
      subst hh
      refine ⟨hcounters, ?_⟩
      unfold ResourceManager.isRegistered registryStep
      dsimp only
      rw [hrr, mapHas_false_iff]
      intro p hp
      have := List.of_mem_filter hp
      simpa using this
  | cleanupStale =>
    have hc := unregisterCount_counters
      ((s.1.registeredResources.foldl
        (fun (acc : List String × CacheMap) p =>
          match DocumentCache.getByHash p.1 acc.2 with
          | (none, c) => (acc.1 ++ [p.1], c)
          | (some _, c) => (acc.1, c))
        ([], s.2)).1)
      (0, s.1,
       (s.1.registeredResources.foldl
        (fun (acc : List String × CacheMap) p =>
          match DocumentCache.getByHash p.1 acc.2 with
          | (none, c) => (acc.1 ++ [p.1], c)
          | (some _, c) => (acc.1, c))
        ([], s.2)).2)
    have hcounters :
        ((registryStep dk .cleanupStale s).1.registrationStats.totalResources,
         (registryStep dk .cleanupStale s).1.registrationStats.successfulRegistrations,
         (registryStep dk .cleanupStale s).1.registrationStats.failedRegistrations) =
        (s.1.registrationStats.totalResources,
         s.1.registrationStats.successfulRegistrations,
         s.1.registrationStats.failedRegistrations) := hc
    refine ⟨?_, ?_, fun h heq => RegistryOp.noConfusion heq, fun _ => hcounters⟩
    · unfold StatsInvariant at hInv ⊢
      have e1 := congrArg Prod.fst hcounters
      have e2 := congrArg (fun t => t.2.1) hcounters
      have e3 := congrArg (fun t => t.2.2) hcounters
      dsimp at e1 e2 e3
      omega
    · have e1 := congrArg Prod.fst hcounters
      dsimp at e1
      omega

/-- Witness for C10: unregistering the registered key `"k"` of `rmAlpha`. -/
theorem C10_stats_invariant_preserved_witness :
    StatsInvariant rmAlpha ∧
    (StatsInvariant (registryStep (fun s => s) (.unregister "k") (rmAlpha, smallCache)).1 ∧
      rmAlpha.registrationStats.totalResources ≤
        (registryStep (fun s => s) (.unregister "k") (rmAlpha, smallCache)).1.registrationStats.totalResources ∧
      (∀ h : String, RegistryOp.unregister "k" = .unregister h →
        ((registryStep (fun s => s) (.unregister "k")
            (rmAlpha, smallCache)).1.registrationStats.totalResources,
         (registryStep (fun s => s) (.unregister "k")
            (rmAlpha, smallCache)).1.registrationStats.successfulRegistrations,
         (registryStep (fun s => s) (.unregister "k")
            (rmAlpha, smallCache)).1.registrationStats.failedRegistrations) =
          (rmAlpha.registrationStats.totalResources,
           rmAlpha.registrationStats.successfulRegistrations,
           rmAlpha.registrationStats.failedRegistrations) ∧
        ResourceManager.isRegistered h
          (registryStep (fun s => s) (.unregister "k") (rmAlpha, smallCache)).1 = false) ∧
      (RegistryOp.unregister "k" = .cleanupStale →
        ((registryStep (fun s => s) (.unregister "k")
            (rmAlpha, smallCache)).1.registrationStats.totalResources,
         (registryStep (fun s => s) (.unregister "k")
            (rmAlpha, smallCache)).1.registrationStats.successfulRegistrations,
         (registryStep (fun s => s) (.unregister "k")
            (rmAlpha, smallCache)).1.registrationStats.failedRegistrations) =
          (rmAlpha.registrationStats.totalResources,
           rmAlpha.registrationStats.successfulRegistrations,
           rmAlpha.registrationStats.failedRegistrations))) :=
  ⟨by decide,
   C10_stats_invariant_preserved (fun s => s) (.unregister "k") (rmAlpha, smallCache)
     (by decide)⟩

/-- The orchestrator's unregister loop filters the bookkeeping map down to
the keys outside the processed list. -/
theorem unregisterHashes_rr (hs : List String) :
    ∀ (rm : ResourceManager) (cache : CacheMap),
      (CacheIntegration.unregisterHashes hs rm cache).1.registeredResources =
        rm.registeredResources.filter (fun p => decide (p.1 ∉ hs)) := by
  induction hs with
  | nil =>
    intro rm cache
    simp [CacheIntegration.unregisterHashes]
  | cons h hs ih =>
    intro rm cache
    have hstep : CacheIntegration.unregisterHashes (h :: hs) rm cache =
        CacheIntegration.unregisterHashes hs
          (ResourceManager.unregisterResource h rm cache).2.1
          (ResourceManager.unregisterResource h rm cache).2.2 := by
      unfold CacheIntegration.unregisterHashes
      rw [List.foldl_cons]
    rw [hstep, ih, unregisterResource_rr, List.filter_filter]
    apply List.filter_congr
    intro p _
    by_cases h1 : p.1 = h <;> by_cases h2 : p.1 ∈ hs <;> simp [h1, h2]

/-- A key the cache can find is among `getAllHashes`. -/
theorem mem_getAllHashes_of_mapHas {cache : CacheMap} {k : String}
    (hk : mapHas cache k = true) : k ∈ DocumentCache.getAllHashes cache := by
  unfold mapHas at hk
  rw [List.find?_isSome] at hk
  obtain ⟨x, hx, hxk⟩ := hk
  have hx1 : x.1 = k := by simpa using hxk
  unfold DocumentCache.getAllHashes
  exact hx1 ▸ List.mem_map_of_mem _ hx

/-- C3 as stated is false: `clearAll` iterates over the hashes *in the
cache*, not over the registered keys.  With `rmAlpha` (key `"k"` registered)
and `smallCache` (which holds only `"a"`), the registration for `"k"` — whose
backing document is no longer cached — survives `clearAll`. -/
theorem C3_counterexample :
    ResourceManager.isRegistered "k" rmAlpha = true ∧
    mapGet smallCache "k" = none ∧
    DocumentCache.size (CacheIntegration.clearAll rmAlpha smallCache).2 = 0 ∧
    ResourceManager.isRegistered "k" (CacheIntegration.clearAll rmAlpha smallCache).1 =
      true := by
  refine ⟨by decide, by decide, by decide, by decide⟩

/-- C3 (amended): after `clearAll()` the cache is empty, and every key whose
document was in the cache before the call is unregistered; registered keys
whose backing document was no longer in the cache keep their (stale)
registration. -/
theorem C3_clearAll_empties_cache_and_unregisters_cached (rm : ResourceManager)
    (cache : CacheMap) :
    DocumentCache.size (CacheIntegration.clearAll rm cache).2 = 0 ∧
    (∀ k : String, mapHas cache k = true →
      ResourceManager.isRegistered k (CacheIntegration.clearAll rm cache).1 = false) := by
  constructor
  · rfl
  · intro k hk
    have hkmem := mem_getAllHashes_of_mapHas hk
    unfold CacheIntegration.clearAll ResourceManager.isRegistered
    dsimp only
    rw [unregisterHashes_rr, mapHas_false_iff]
    intro p hp
    have hnot := List.of_mem_filter hp
    intro hpk
    rw [hpk] at hnot
    simp at hnot
    exact hnot hkmem

/-- Witness for C3 (amended): clearing `smallCache` under the registry
`rmDocA`, which registers the cached key `"a"`. -/
theorem C3_clearAll_empties_cache_and_unregisters_cached_witness :
    mapHas smallCache "a" = true ∧
    DocumentCache.size (CacheIntegration.clearAll rmDocA smallCache).2 = 0 ∧
    ResourceManager.isRegistered "a" (CacheIntegration.clearAll rmDocA smallCache).1 =
      false :=
  ⟨by decide,
   (C3_clearAll_empties_cache_and_unregisters_cached rmDocA smallCache).1,
   (C3_clearAll_empties_cache_and_unregisters_cached rmDocA smallCache).2 "a"
     (by decide)⟩

/-- Effects of the shared store-then-register tail: the document is stored at
the derived key, the returned result is a miss result, and the registry is
unchanged at every key other than the stored document's. -/
theorem storeAndRegister_effects (dk : String → String) (tnow : Nat)
    (cfg : CacheIntegrationConfig) (url : String) (content : FormatResult)
    (cacheKey : String) (cachedDoc : CachedDocument) (serverErr : Option String)
    (cache : CacheMap) (rm : ResourceManager) :
    (CacheIntegration.storeAndRegister dk tnow cfg url content cacheKey cachedDoc
        serverErr cache rm).2.1 =
      mapSet cache (dk url)
        { cachedDoc with hash := dk url, accessCount := 0, timestamp := tnow } ∧
    (CacheIntegration.storeAndRegister dk tnow cfg url content cacheKey cachedDoc
        serverErr cache rm).1.fromCache = false ∧
    (∀ h2 : String, h2 ≠ cachedDoc.hash →
      ResourceManager.isRegistered h2
          (CacheIntegration.storeAndRegister dk tnow cfg url content cacheKey cachedDoc
            serverErr cache rm).2.2 =
        ResourceManager.isRegistered h2 rm) := by
  unfold CacheIntegration.storeAndRegister DocumentCache.set
  cases hr : cfg.registerResources
  · exact ⟨rfl, rfl, fun h2 _ => rfl⟩
  · refine ⟨rfl, rfl, ?_⟩
    intro h2 hne
    unfold ResourceManager.isRegistered ResourceManager.registerResource
    by_cases hreg : mapHas rm.registeredResources cachedDoc.hash
    · rw [if_pos hreg]
      rfl
    · rw [if_neg hreg]
      cases serverErr with
      | none =>
        dsimp only
        exact mapHas_mapSet_ne _ _ _ _ hne
      | some msg => rfl

/-- Unregistering a single hash whose document is absent from the cache
leaves the cache unchanged and filters the hash out of the bookkeeping map. -/
theorem unregisterHashes_single (h : String) (rm : ResourceManager)
    (cache : CacheMap) (hget : mapGet cache h = none) :
    (CacheIntegration.unregisterHashes [h] rm cache).2 = cache ∧
    (CacheIntegration.unregisterHashes [h] rm cache).1.registeredResources =
      rm.registeredResources.filter (fun p => p.1 != h) := by
  unfold CacheIntegration.unregisterHashes
  rw [List.foldl_cons, List.foldl_nil]
  unfold ResourceManager.unregisterResource
  by_cases hreg : mapHas rm.registeredResources h
  · rw [if_pos hreg]
    unfold DocumentCache.getByHash
    rw [hget]
    exact ⟨rfl, rfl⟩
  · rw [if_neg hreg]
    exact ⟨rfl, (mapDelete_of_not_has (by simpa using hreg)).symm⟩

/-- C2: on a cache miss with `maxCacheSize > 0` and the cache at or over the
limit, `cacheAwareFormat` either (autoEvict on) evicts exactly the one
LRU-selected entry, leaves that entry unregistered, and stores the new
document at the derived key; or (autoEvict off) returns the freshly formatted
content uncached, with `fromCache = false` and the non-empty error string
`"Cache size limit reached"`, leaving cache and registry untouched. -/
theorem C2_capacity_limit_behaviour (dk : String → String) (titleOf : String → String)
    (typeOf : String → String → String) (cfg : CacheIntegrationConfig) (tnow : Nat)
    (url : String) (fmt : FormatResult) (serverErr : Option String) (cache : CacheMap)
    (rm : ResourceManager) (blk : ContentBlock)
    (hwf : WellFormedCache cache) (hen : cfg.enabled = true)
    (hmiss : mapGet cache (dk url) = none) (herr : fmt.isError = false)
    (hblk : fmt.content.head? = some blk)
    (hmax : 0 < cfg.maxCacheSize) (hsize : cfg.maxCacheSize ≤ DocumentCache.size cache) :
    (cfg.autoEvict = true →
      ∃ ev : String,
        DocumentCache.evictLRU 1 cache = ([ev], mapDelete cache ev) ∧
        mapHas cache ev = true ∧ ev ≠ dk url ∧
        (CacheIntegration.cacheAwareFormat dk titleOf typeOf cfg tnow url fmt false
            serverErr cache rm).2.1 =
          mapSet (mapDelete cache ev) (dk url)
            { url := url, hash := dk url, markdown := blk.text,
              title := titleOf blk.text, type := typeOf url blk.text,
              timestamp := tnow, accessCount := 0 } ∧
        mapGet (CacheIntegration.cacheAwareFormat dk titleOf typeOf cfg tnow url fmt
            false serverErr cache rm).2.1 (dk url) =
          some { url := url, hash := dk url, markdown := blk.text,
                 title := titleOf blk.text, type := typeOf url blk.text,
                 timestamp := tnow, accessCount := 0 } ∧
        ResourceManager.isRegistered ev
          (CacheIntegration.cacheAwareFormat dk titleOf typeOf cfg tnow url fmt false
            serverErr cache rm).2.2 = false ∧
        (CacheIntegration.cacheAwareFormat dk titleOf typeOf cfg tnow url fmt false
          serverErr cache rm).1.fromCache = false) ∧
    (cfg.autoEvict = false →
      CacheIntegration.cacheAwareFormat dk titleOf typeOf cfg tnow url fmt false
          serverErr cache rm =
        ({ content := fmt, fromCache := false, cacheKey := dk url, resourceUri := none,
           error := some "Cache size limit reached" }, cache, rm)) := by
  have hlookup : (if cfg.enabled && !false then DocumentCache.get dk url cache
      else (none, cache)) = (none, cache) := by
    rw [hen]
    simp only [Bool.not_false, Bool.and_self, eq_self_iff_true, if_true]
    unfold DocumentCache.get DocumentCache.getByHash
    rw [hmiss]
  have hcond : (decide (cfg.maxCacheSize > 0) &&
      decide (cfg.maxCacheSize ≤ DocumentCache.size cache)) = true := by
    rw [decide_eq_true hmax, decide_eq_true hsize]
    rfl
  constructor
  · intro hae
    have hne : cache ≠ [] := by
      intro h0
      rw [h0] at hsize
      unfold DocumentCache.size at hsize
      simp at hsize
      omega
    obtain ⟨d, hdmem, hdmin, hev⟩ := evictLRU_one cache hwf hne
    have hhas : mapHas cache d.hash = true := mapHas_hash_of_mem_getAll hwf hdmem
    have hnekey : d.hash ≠ dk url := by
      intro hc
      rw [hc, mapHas_eq_isSome, hmiss] at hhas
      simp at hhas
    have hdelnone : mapGet (mapDelete cache d.hash) d.hash = none :=
      mapGet_mapDelete_self cache d.hash
    obtain ⟨hu1, hu2⟩ := unregisterHashes_single d.hash rm (mapDelete cache d.hash) hdelnone
    have hreduce : CacheIntegration.cacheAwareFormat dk titleOf typeOf cfg tnow url fmt
        false serverErr cache rm =
        CacheIntegration.storeAndRegister dk tnow cfg url fmt (dk url)
          { url := url, hash := dk url, markdown := blk.text,
            title := titleOf blk.text, type := typeOf url blk.text,
            timestamp := tnow, accessCount := 0 }
          serverErr
          (CacheIntegration.unregisterHashes [d.hash] rm (mapDelete cache d.hash)).2
          (CacheIntegration.unregisterHashes [d.hash] rm (mapDelete cache d.hash)).1 := by
      unfold CacheIntegration.cacheAwareFormat
      dsimp only
      rw [hlookup]
      rw [hen, herr]
      simp only [Bool.not_false, Bool.and_self, eq_self_iff_true, if_true]
      rw [hblk]
      simp only [hcond, eq_self_iff_true, if_true]
      rw [hae]
      simp only [eq_self_iff_true, if_true]
      rw [hev]
    refine ⟨d.hash, hev, hhas, hnekey, ?_, ?_, ?_, ?_⟩
    · rw [hreduce]
      have := (storeAndRegister_effects dk tnow cfg url fmt (dk url)
        { url := url, hash := dk url, markdown := blk.text,
          title := titleOf blk.text, type := typeOf url blk.text,
          timestamp := tnow, accessCount := 0 }
        serverErr
        (CacheIntegration.unregisterHashes [d.hash] rm (mapDelete cache d.hash)).2
        (CacheIntegration.unregisterHashes [d.hash] rm (mapDelete cache d.hash)).1).1
      rw [this, hu1]
    · rw [hreduce]
      have := (storeAndRegister_effects dk tnow cfg url fmt (dk url)
        { url := url, hash := dk url, markdown := blk.text,
          title := titleOf blk.text, type := typeOf url blk.text,
          timestamp := tnow, accessCount := 0 }
        serverErr
        (CacheIntegration.unregisterHashes [d.hash] rm (mapDelete cache d.hash)).2
        (CacheIntegration.unregisterHashes [d.hash] rm (mapDelete cache d.hash)).1).1
      rw [this]
      exact mapGet_mapSet_self _ _ _
    · rw [hreduce]
      have h3 := (storeAndRegister_effects dk tnow cfg url fmt (dk url)
        { url := url, hash := dk url, markdown := blk.text,
          title := titleOf blk.text, type := typeOf url blk.text,
          timestamp := tnow, accessCount := 0 }
        serverErr
        (CacheIntegration.unregisterHashes [d.hash] rm (mapDelete cache d.hash)).2
        (CacheIntegration.unregisterHashes [d.hash] rm (mapDelete cache d.hash)).1).2.2
      rw [h3 d.hash hnekey]
      unfold ResourceManager.isRegistered
      rw [hu2, mapHas_false_iff]
      intro p hp
      have := List.of_mem_filter hp
      simpa using this
    · rw [hreduce]
      exact (storeAndRegister_effects dk tnow cfg url fmt (dk url)
        { url := url, hash := dk url, markdown := blk.text,
          title := titleOf blk.text, type := typeOf url blk.text,
          timestamp := tnow, accessCount := 0 }
        serverErr
        (CacheIntegration.unregisterHashes [d.hash] rm (mapDelete cache d.hash)).2
        (CacheIntegration.unregisterHashes [d.hash] rm (mapDelete cache d.hash)).1).2.1
  · intro hae
    unfold CacheIntegration.cacheAwareFormat
    dsimp only
    rw [hlookup]
    rw [hen, herr]
    simp only [Bool.not_false, Bool.and_self, eq_self_iff_true, if_true]
    rw [hblk]
    simp only [hcond, eq_self_iff_true, if_true]
    rw [hae]
    simp only [Bool.false_eq_true, if_false]

/-- Witness for C2 on the full one-entry cache `smallCache` with
`maxCacheSize = 1`, instantiating both the auto-evicting and the
non-evicting configuration. -/
theorem C2_capacity_limit_behaviour_witness :
    (0 < cfgNoEvict.maxCacheSize ∧
     cfgNoEvict.maxCacheSize ≤ DocumentCache.size smallCache ∧
     mapGet smallCache "b" = none) ∧
    (∃ ev : String,
      DocumentCache.evictLRU 1 smallCache = ([ev], mapDelete smallCache ev) ∧
      mapHas smallCache ev = true ∧ ev ≠ "b" ∧
      (CacheIntegration.cacheAwareFormat (fun s => s) (fun m => m)
          (fun _ _ => "documentation") cfgEvict 7 "b" fmtOk false none smallCache
          rmAlpha).2.1 =
        mapSet (mapDelete smallCache ev) "b"
          { url := "b", hash := "b", markdown := "# B", title := "# B",
            type := "documentation", timestamp := 7, accessCount := 0 } ∧
      mapGet (CacheIntegration.cacheAwareFormat (fun s => s) (fun m => m)
          (fun _ _ => "documentation") cfgEvict 7 "b" fmtOk false none smallCache
          rmAlpha).2.1 "b" =
        some { url := "b", hash := "b", markdown := "# B", title := "# B",
               type := "documentation", timestamp := 7, accessCount := 0 } ∧
      ResourceManager.isRegistered ev
        (CacheIntegration.cacheAwareFormat (fun s => s) (fun m => m)
          (fun _ _ => "documentation") cfgEvict 7 "b" fmtOk false none smallCache
          rmAlpha).2.2 = false ∧
      (CacheIntegration.cacheAwareFormat (fun s => s) (fun m => m)
        (fun _ _ => "documentation") cfgEvict 7 "b" fmtOk false none smallCache
        rmAlpha).1.fromCache = false) ∧
    (CacheIntegration.cacheAwareFormat (fun s => s) (fun m => m)
        (fun _ _ => "documentation") cfgNoEvict 7 "b" fmtOk false none smallCache
        rmAlpha =
      ({ content := fmtOk, fromCache := false, cacheKey := "b", resourceUri := none,
         error := some "Cache size limit reached" }, smallCache, rmAlpha)) :=
  ⟨⟨by decide, by decide, by decide⟩,
   (C2_capacity_limit_behaviour (fun s => s) (fun m => m) (fun _ _ => "documentation")
      cfgEvict 7 "b" fmtOk none smallCache rmAlpha { text := "# B" }
      (by decide) (by decide) (by decide) (by decide) (by decide) (by decide)
      (by decide)).1 (by decide),
   (C2_capacity_limit_behaviour (fun s => s) (fun m => m) (fun _ _ => "documentation")
      cfgNoEvict 7 "b" fmtOk none smallCache rmAlpha { text := "# B" }
      (by decide) (by decide) (by decide) (by decide) (by decide) (by decide)
      (by decide)).2 (by decide)⟩

/-- C8: when the awaited formatter result is flagged as an error, the call
(which reached the formatter because caching was off, the cache was skipped,
or the lookup missed) returns that result unchanged with `fromCache = false`
and no `resourceUri`/`error` fields, and leaves both the cache and the
registry exactly as they were. -/
theorem C8_formatter_error_propagates_without_state (dk : String → String)
    (titleOf : String → String) (typeOf : String → String → String)
    (cfg : CacheIntegrationConfig) (tnow : Nat) (url : String) (fmt : FormatResult)
    (skipCache : Bool) (serverErr : Option String) (cache : CacheMap)
    (rm : ResourceManager) (herr : fmt.isError = true)
    (hnohit : cfg.enabled = false ∨ skipCache = true ∨ mapGet cache (dk url) = none) :
    CacheIntegration.cacheAwareFormat dk titleOf typeOf cfg tnow url fmt skipCache
        serverErr cache rm =
      ({ content := fmt, fromCache := false, cacheKey := dk url,
         resourceUri := none, error := none },
       cache, rm) := by
  have hlookup : (if cfg.enabled && !skipCache then DocumentCache.get dk url cache
      else (none, cache)) = (none, cache) := by
    rcases hnohit with h | h | h
    · rw [h]
      simp
    · rw [h]
      simp
    · by_cases hc : (cfg.enabled && !skipCache) = true
      · rw [if_pos hc]
        unfold DocumentCache.get DocumentCache.getByHash
        rw [h]
      · rw [if_neg hc]
  unfold CacheIntegration.cacheAwareFormat
  dsimp only
  rw [hlookup]
  simp [herr]

/-- Witness for C8: an error-flagged formatter result on a miss against
`smallCache` comes back unchanged, with the state untouched. -/
theorem C8_formatter_error_propagates_without_state_witness :
    fmtErr.isError = true ∧
    CacheIntegration.cacheAwareFormat (fun s => s) (fun m => m) (fun _ _ => "api")
        cfgNoEvict 7 "b" fmtErr false none smallCache rmAlpha =
      ({ content := fmtErr, fromCache := false, cacheKey := "b",
         resourceUri := none, error := none },
       smallCache, rmAlpha) :=
  ⟨by decide,
   C8_formatter_error_propagates_without_state (fun s => s) (fun m => m)
     (fun _ _ => "api") cfgNoEvict 7 "b" fmtErr false none smallCache rmAlpha
     (by decide) (Or.inr (Or.inr (by decide)))⟩
